import Mathlib

/-!
Shallow embedding of `allennlp/interpret/saliency_interpreters/saliency_interpreter.py`
(repository `sfschouten/allennlp`).

Modelling conventions:
* Python strings are modelled as their character sequences (`List Char`), so that
  `str.split` and f-string concatenation become elementary list operations.
* Python exceptions are modelled with `Except PyErr`: `raise` is `Except.error`, and an
  uncaught exception propagates through `bind`, exactly as in the source (which contains
  no `try`/`except`).
* Python dicts are insertion-ordered; they are modelled as association lists built only
  by `dictInsert`, where assignment `d[k] = v` updates an existing key in place and
  otherwise appends.
* `Tqdm.tqdm(...)` is a progress-reporting wrapper that yields the wrapped iterator's
  elements unchanged (and tolerates iterators of unknown length); it is dropped from
  the embedding.
* Dynamic dispatch of the abstract method `saliency_interpret_instances` is modelled by
  storing the (possibly overridden) method in the interpreter object.
-/

/-- Python strings, modelled as their character sequences. -/
abbrev PyStr := List Char

/-- Character sequence of a concrete string literal. -/
def pystr (s : String) : PyStr := s.data

/-- The Python exceptions relevant to this module. -/
inductive PyErr where
  /-- `NotImplementedError(msg)` -/
  | notImplementedError (msg : String)
  /-- `ValueError` (failed tuple unpacking, failed `int()` conversion, `range` step 0) -/
  | valueError
  /-- `TypeError` (e.g. `len()` of an object with no length method) -/
  | typeError
  /-- any other exception raised by a collaborator (Predictor / model / dataset) -/
  | other (code : Nat)
deriving DecidableEq

deriving instance DecidableEq for Except

variable {I O J V : Type}

/-- Little-endian decimal digits of `n` (empty for `n = 0`); any `fuel ≥ n` suffices. -/
def natDigitsRev : Nat → Nat → List Nat
  | 0, _ => []
  | fuel + 1, n => if n = 0 then [] else n % 10 :: natDigitsRev fuel (n / 10)

/-- The character of one decimal digit. -/
def digitChar (d : Nat) : Char :=
  if d = 0 then '0' else if d = 1 then '1' else if d = 2 then '2' else if d = 3 then '3'
  else if d = 4 then '4' else if d = 5 then '5' else if d = 6 then '6' else if d = 7 then '7'
  else if d = 8 then '8' else '9'

/-- Python `str(n)` for a natural number `n` (as interpolated by the f-string on
line 59): its decimal digit characters. -/
def pyStrNat (n : Nat) : PyStr :=
  if n = 0 then ['0'] else ((natDigitsRev n n).reverse).map digitChar

/-- The decimal value of an ASCII digit character, `none` otherwise. -/
def charToDigit (c : Char) : Option Nat :=
  if c = '0' then some 0 else if c = '1' then some 1 else if c = '2' then some 2
  else if c = '3' then some 3 else if c = '4' then some 4 else if c = '5' then some 5
  else if c = '6' then some 6 else if c = '7' then some 7 else if c = '8' then some 8
  else if c = '9' then some 9 else none

/-- Python `int(s)` on the canonical decimal strings arising here: the value of a
nonempty all-digit string, `ValueError` otherwise.  (Python `int` additionally strips
whitespace and accepts a sign; such inputs never occur in this module's keys.) -/
def pyIntNat (s : PyStr) : Except PyErr Nat :=
  match s.mapM charToDigit with
  | none => .error .valueError
  | some [] => .error .valueError
  | some ds => .ok (ds.foldl (fun a d => 10 * a + d) 0)

/-- Python `s.split(sep)` for a single-character separator. -/
def pySplitChar (sep : Char) : PyStr → List PyStr
  | [] => [[]]
  | c :: cs =>
    if c = sep then [] :: pySplitChar sep cs
    else
      match pySplitChar sep cs with
      | [] => [[c]]
      | h :: t => (c :: h) :: t

/-- The Python dicts of this module: insertion-ordered association lists. -/
abbrev PyDict (V : Type) := List (PyStr × V)

/-- Python `d[k] = v`: update an existing key in place, otherwise append. -/
def dictInsert (m : PyDict V) (k : PyStr) (v : V) : PyDict V :=
  if m.any (fun kv => kv.1 == k) then m.map (fun kv => if kv.1 == k then (k, v) else kv)
  else m ++ [(k, v)]

/-- The Predictor collaborator, as consumed by this module (spec section 6): conversion
of a raw JSON input to labeled instances, the wrapped model's batched forward pass
(`predictor._model.forward_on_instances`), and conversion of one (instance, output) pair
into one or more labeled instances.  Each operation may raise. -/
structure Predictor (I O J : Type) where
  json_to_labeled_instances : J → Except PyErr (List I)
  forward_on_instances : List I → Except PyErr (List O)
  predictions_to_labeled_instances : I → O → Except PyErr (List I)

/-- A dataset argument (`Union[AllennlpDataset, AllennlpLazyDataset]`).
`AllennlpDataset` holds a materialized list of instances and supports `len`.
`AllennlpLazyDataset` is code of this repository not under `src/`; it is modelled from
the spec (sections 2 and 4.1): a finite iterable of instances that "may be streamed
without a known length" — iterating it yields its instances in order, but `len()`
raises `TypeError`, as for any Python object without a length method. -/
inductive Dataset (I : Type) where
  | eager (instances : List I)
  | lazy (instances : List I)

/-- The sequence of instances produced by iterating the dataset
(`itertools.islice` re-iterates the dataset from its start). -/
def Dataset.toList : Dataset I → List I
  | .eager l => l
  | .lazy l => l

/-- Python `len(data)`. -/
def Dataset.pyLen : Dataset I → Except PyErr Nat
  | .eager l => .ok l.length
  | .lazy _ => .error .typeError

/-- Modelled from the spec: `allennlp.common.util.sanitize` is not under `src/`; per the
spec glossary it converts "internal numeric/tensor results into plain JSON-serializable
values", i.e. it transforms every value and leaves the key structure unchanged.  The
per-value conversion is abstracted as a function argument. -/
def sanitizeDict (sanitizeV : V → V) (m : PyDict V) : PyDict V :=
  m.map (fun kv => (kv.1, sanitizeV kv.2))

/-- `SaliencyInterpreter` (lines 12-19): holds the Predictor reference set by `__init__`
and the per-instance core operation `saliency_interpret_instances` that concrete
subclasses override. -/
structure SaliencyInterpreter (I O J V : Type) where
  predictor : Predictor I O J
  saliency_interpret_instances : List I → Except PyErr (PyDict V)

/-- The base class itself, with no subclass override: its
`saliency_interpret_instances` is the body at lines 63-81,
`raise NotImplementedError("Implement this for saliency interpretations")`. -/
def SaliencyInterpreter.base (p : Predictor I O J) : SaliencyInterpreter I O J V :=
  ⟨p, fun _ => .error (.notImplementedError "Implement this for saliency interpretations")⟩

/-- Lines 21-41: convert the inputs to labeled instances via the Predictor, then
delegate to the per-instance core operation.  The result is returned exactly as the
core operation produced it (no `sanitize` on this path). -/
def SaliencyInterpreter.saliency_interpret_from_json (self : SaliencyInterpreter I O J V)
    (inputs : J) : Except PyErr (PyDict V) := do
  let labeled_instances ← self.predictor.json_to_labeled_instances inputs
  self.saliency_interpret_instances labeled_instances

/-- Number of elements of Python `range(0, stop, step)`, for `step > 0`. -/
def pyRangeLen (stop step : Nat) : Nat := (stop + step - 1) / step

/-- Python `range(0, stop, step)`, for `step > 0`. -/
def pyRange (stop step : Nat) : List Nat :=
  (List.range (pyRangeLen stop step)).map (· * step)

/-- Lines 58-59: `key_name, key_idx = key.split('_')` followed by building
`f'{key_name}_{batch_size*idx + int(key_idx)}'`.  Tuple unpacking raises `ValueError`
unless the split has exactly two parts; `int` raises `ValueError` on a non-numeric
part. -/
def renumber_key (batch_size idx : Nat) (key : PyStr) : Except PyErr PyStr :=
  match pySplitChar '_' key with
  | [key_name, key_idx] =>
    match pyIntNat key_idx with
    | .ok k => .ok (key_name ++ '_' :: pyStrNat (batch_size * idx + k))
    | .error e => .error e
  | _ => .error .valueError

/-- Lines 48-59, the body of one iteration of the batch loop: materialize the batch, run
the model's batched forward pass, convert each (instance, output) pair to labeled
instances and flatten them into one list, run the core operation on that list, and merge
its result into the running `interpretations` dict under globally renumbered keys. -/
def SaliencyInterpreter.process_batch (self : SaliencyInterpreter I O J V)
    (batch_size idx : Nat) (batch : List I) (interpretations : PyDict V) :
    Except PyErr (PyDict V) := do
  let batch_outputs ← self.predictor.forward_on_instances batch
  let labeled_instances ← (batch.zip batch_outputs).foldlM
    (fun acc io => do
      let labeled_instance ← self.predictor.predictions_to_labeled_instances io.1 io.2
      pure (acc ++ labeled_instance)) []
  let batch_interpr ← self.saliency_interpret_instances labeled_instances
  batch_interpr.foldlM
    (fun acc kv => do
      let key ← renumber_key batch_size idx kv.1
      pure (dictInsert acc key kv.2)) interpretations

/-- Lines 43-61.  `len(data)` is evaluated when the generator expression for `batches`
is created (the outermost iterable of a generator expression is evaluated eagerly), so
it runs before any batch is processed; `range` with step 0 raises `ValueError`.  Batch
`idx` is `itertools.islice(data, x, x + batch_size)` for start `x = idx * batch_size`,
i.e. the `idx`-th element of `enumerate` over `range(0, len(data), batch_size)`.  The
merged dict is passed through `sanitize` before being returned. -/
def SaliencyInterpreter.saliency_interpret_dataset (self : SaliencyInterpreter I O J V)
    (sanitizeV : V → V) (data : Dataset I) (batch_size : Nat) :
    Except PyErr (PyDict V) := do
  let n ← data.pyLen
  if batch_size = 0 then Except.error PyErr.valueError
  else do
    let interpretations ←
      ((List.range (pyRangeLen n batch_size)).map (fun idx => (idx, idx * batch_size))).foldlM
        (fun interpretations ib =>
          self.process_batch batch_size ib.1 ((data.toList.drop ib.2).take batch_size)
            interpretations) []
    pure (sanitizeDict sanitizeV interpretations)

/-- The consecutive windows into which lines 45-48 partition the dataset:
`list(itertools.islice(data, x, x + batch_size))` for each start `x` produced by
`range(0, len(data), batch_size)`. -/
def datasetWindows (data : List I) (batch_size : Nat) : List (List I) :=
  (pyRange data.length batch_size).map (fun x => (data.drop x).take batch_size)

/-- The key `"instance_<n>"`. -/
def instKey (n : Nat) : PyStr := pystr "instance" ++ '_' :: pyStrNat n

/-- One call of `saliency_interpret_from_json` viewed as a transition on the interpreter
object: the method body reads `self.predictor` and dispatches
`self.saliency_interpret_instances` but assigns no attribute, so the post-call object is
the unchanged receiver. -/
def SaliencyInterpreter.saliency_interpret_from_json_call
    (self : SaliencyInterpreter I O J V) (inputs : J) :
    Except PyErr (PyDict V) × SaliencyInterpreter I O J V :=
  (self.saliency_interpret_from_json inputs, self)

/-- One call of `saliency_interpret_dataset` viewed as a transition on the interpreter
object; the method body assigns no attribute, so the post-call object is the unchanged
receiver. -/
def SaliencyInterpreter.saliency_interpret_dataset_call
    (self : SaliencyInterpreter I O J V) (sanitizeV : V → V) (data : Dataset I)
    (batch_size : Nat) :
    Except PyErr (PyDict V) × SaliencyInterpreter I O J V :=
  (self.saliency_interpret_dataset sanitizeV data batch_size, self)

/-- One call of the per-instance core operation viewed as a transition on the
interpreter object; the base body only raises and assigns no attribute. -/
def SaliencyInterpreter.saliency_interpret_instances_call
    (self : SaliencyInterpreter I O J V) (labeled_instances : List I) :
    Except PyErr (PyDict V) × SaliencyInterpreter I O J V :=
  (self.saliency_interpret_instances labeled_instances, self)

/-- A concrete predictor over natural-number instances, for witnesses: a JSON input `j`
yields the single labeled instance `j`, the forward pass returns each instance
unchanged, and each (instance, output) pair yields exactly one labeled instance. -/
def pNat : Predictor Nat Nat Nat :=
  ⟨fun j => .ok [j], fun b => .ok (b.map (fun i => i)), fun i _o => .ok [i]⟩

/-- A concrete core operation keying its results `instance_0 .. instance_(k-1)`, with
the instance itself as value. -/
def instCore : List Nat → Except PyErr (PyDict Nat) :=
  fun l => .ok ((List.enumFrom 0 l).map (fun jv => (instKey jv.1, jv.2)))

/-- A concrete interpreter: `pNat` with core `instCore`. -/
def interpNat : SaliencyInterpreter Nat Nat Nat Nat := ⟨pNat, instCore⟩

/-- A concrete core operation keying its results `grad_input_0 .. grad_input_(k-1)`,
the key shape used as the example in the source's own docstrings. -/
def gradCore : List Nat → Except PyErr (PyDict Nat) :=
  fun l => .ok ((List.enumFrom 0 l).map
    (fun jv => (pystr "grad_input" ++ '_' :: pyStrNat jv.1, jv.2)))

/-- A concrete interpreter whose core produces `grad_input_<j>` keys. -/
def gradInterp : SaliencyInterpreter Nat Nat Nat Nat := ⟨pNat, gradCore⟩

/-- A concrete predictor whose batched forward pass always raises. -/
def pFail : Predictor Nat Nat Nat :=
  ⟨fun j => .ok [j], fun _ => .error (.other 7), fun i _o => .ok [i]⟩

/-- A concrete interpreter built on the failing predictor `pFail`. -/
def failInterp : SaliencyInterpreter Nat Nat Nat Nat := ⟨pFail, instCore⟩

/-! ### Decimal strings: formatting/parsing round trip -/

theorem natDigitsRev_lt_ten : ∀ (fuel n d : Nat), d ∈ natDigitsRev fuel n → d < 10 := by
  intro fuel
  induction fuel with
  | zero => intro n d h; simp [natDigitsRev] at h
  | succ fuel ih =>
    intro n d h
    by_cases hn : n = 0
    · simp [natDigitsRev, hn] at h
    · simp only [natDigitsRev, if_neg hn, List.mem_cons] at h
      rcases h with h | h
      · subst h; omega
      · exact ih _ _ h

theorem foldr_natDigitsRev : ∀ (fuel n : Nat), n ≤ fuel →
    (natDigitsRev fuel n).foldr (fun d a => 10 * a + d) 0 = n := by
  intro fuel
  induction fuel with
  | zero => intro n h; interval_cases n; rfl
  | succ fuel ih =>
    intro n h
    by_cases hn : n = 0
    · simp [natDigitsRev, hn]
    · have hdiv : n / 10 ≤ fuel := by
        have h1 : n / 10 < n := Nat.div_lt_self (Nat.pos_of_ne_zero hn) (by omega)
        omega
      have h2 := Nat.div_add_mod n 10
      simp only [natDigitsRev, if_neg hn, List.foldr_cons, ih _ hdiv]
      omega

theorem charToDigit_digitChar (d : Nat) (h : d < 10) : charToDigit (digitChar d) = some d := by
  interval_cases d <;> rfl

theorem digitChar_ne_underscore (d : Nat) (h : d < 10) : digitChar d ≠ '_' := by
  interval_cases d <;> decide

theorem pyStrNat_no_underscore (n : Nat) : '_' ∉ pyStrNat n := by
  by_cases hn : n = 0
  · subst hn; decide
  · simp only [pyStrNat, if_neg hn, List.mem_map]
    rintro ⟨d, hd, hd2⟩
    exact digitChar_ne_underscore d (natDigitsRev_lt_ten n n d (List.mem_reverse.mp hd)) hd2

theorem mapM_charToDigit_digitChar : ∀ (l : List Nat), (∀ d ∈ l, d < 10) →
    (l.map digitChar).mapM charToDigit = some l := by
  intro l
  induction l with
  | nil => intro _; rfl
  | cons d l ih =>
    intro h
    simp only [List.map_cons, List.mapM_cons, charToDigit_digitChar d (h d (by simp)),
      ih (fun x hx => h x (by simp [hx])), Option.pure_def, Option.bind_eq_bind,
      Option.some_bind]

theorem pyIntNat_pyStrNat (n : Nat) : pyIntNat (pyStrNat n) = .ok n := by
  by_cases hn : n = 0
  · subst hn; decide
  · have hne : natDigitsRev n n ≠ [] := by
      cases n with
      | zero => exact absurd rfl hn
      | succ m => simp [natDigitsRev]
    have hmem : ∀ d ∈ (natDigitsRev n n).reverse, d < 10 :=
      fun d hd => natDigitsRev_lt_ten n n d (List.mem_reverse.mp hd)
    simp only [pyStrNat, if_neg hn, pyIntNat, mapM_charToDigit_digitChar _ hmem]
    cases h : (natDigitsRev n n).reverse with
    | nil => exact absurd (by simpa using congrArg List.reverse h) hne
    | cons d ds =>
      simp only
      rw [← h, List.foldl_reverse, foldr_natDigitsRev n n (Nat.le_refl n)]

theorem pyStrNat_injective {a b : Nat} (h : pyStrNat a = pyStrNat b) : a = b := by
  have := congrArg pyIntNat h
  rw [pyIntNat_pyStrNat, pyIntNat_pyStrNat] at this
  exact Except.ok.inj this

/-! ### Python split -/

theorem pySplitChar_of_not_mem (sep : Char) : ∀ (s : PyStr), sep ∉ s →
    pySplitChar sep s = [s] := by
  intro s
  induction s with
  | nil => intro _; rfl
  | cons c cs ih =>
    intro h
    have hc : ¬(c = sep) := fun hc => h (by simp [hc])
    simp only [pySplitChar, if_neg hc, ih (fun hm => h (by simp [hm]))]

theorem pySplitChar_append (sep : Char) : ∀ (name rest : PyStr), sep ∉ name →
    pySplitChar sep (name ++ sep :: rest) = name :: pySplitChar sep rest := by
  intro name
  induction name with
  | nil => intro rest _; simp [pySplitChar]
  | cons c cs ih =>
    intro rest h
    have hc : ¬(c = sep) := fun hc => h (by simp [hc])
    rw [List.cons_append]
    simp only [pySplitChar, if_neg hc]
    rw [ih rest (fun hm => h (by simp [hm]))]

/-! ### Except bind reductions -/

@[simp] theorem exceptBind_ok {E A B : Type} (a : A) (f : A → Except E B) :
    (Except.ok a >>= f : Except E B) = f a := rfl

@[simp] theorem exceptBind_error {E A B : Type} (e : E) (f : A → Except E B) :
    ((Except.error e : Except E A) >>= f) = Except.error e := rfl

/-! ### Key renumbering -/

theorem renumber_key_ok (B idx j : Nat) (name : PyStr) (h : '_' ∉ name) :
    renumber_key B idx (name ++ '_' :: pyStrNat j) =
      .ok (name ++ '_' :: pyStrNat (B * idx + j)) := by
  unfold renumber_key
  rw [pySplitChar_append _ _ _ h,
    pySplitChar_of_not_mem _ _ (pyStrNat_no_underscore j)]
  simp only [pyIntNat_pyStrNat]

theorem renumber_key_underscore_name (B idx : Nat) (n1 n2 s : PyStr)
    (h1 : '_' ∉ n1) (h2 : '_' ∉ n2) (h3 : '_' ∉ s) :
    renumber_key B idx (n1 ++ '_' :: (n2 ++ '_' :: s)) = .error .valueError := by
  unfold renumber_key
  rw [pySplitChar_append _ _ _ h1, pySplitChar_append _ _ _ h2,
    pySplitChar_of_not_mem _ _ h3]

theorem renumber_key_instKey (B idx j : Nat) :
    renumber_key B idx (instKey j) = .ok (instKey (B * idx + j)) :=
  renumber_key_ok B idx j (pystr "instance") (by decide)

/-! ### Dict insertion of a fresh key -/

theorem dictInsert_of_fresh (m : PyDict V) (k : PyStr) (v : V)
    (h : ∀ kv ∈ m, kv.1 ≠ k) : dictInsert m k v = m ++ [(k, v)] := by
  unfold dictInsert
  rw [if_neg]
  intro hc
  simp only [List.any_eq_true, beq_iff_eq] at hc
  obtain ⟨kv, hkv, hk⟩ := hc
  exact h kv hkv hk

theorem instKey_injective {a b : Nat} (h : instKey a = instKey b) : a = b := by
  unfold instKey at h
  have h2 := List.append_cancel_left h
  exact pyStrNat_injective (List.cons.inj h2).2

@[simp] theorem exceptPure_eq_ok {E A : Type} (a : A) :
    (pure a : Except E A) = Except.ok a := rfl

theorem exceptBind_pure {E A B : Type} (a : A) (f : A → Except E B) :
    ((pure a : Except E A) >>= f) = f a := rfl

/-! ### Keys of an instance-keyed local result -/

theorem keys_enumFrom_map (key : Nat → PyStr) :
    ∀ (vs : List V) (j : Nat),
      ((List.enumFrom j vs).map (fun jv => (key jv.1, jv.2))).map Prod.fst =
        (List.range vs.length).map (fun i => key (j + i)) := by
  intro vs
  induction vs with
  | nil => intro j; rfl
  | cons v vs ih =>
    intro j
    have h1 : List.enumFrom j (v :: vs) = (j, v) :: List.enumFrom (j + 1) vs := rfl
    rw [h1, List.map_cons, List.map_cons, List.length_cons, List.range_succ_eq_map,
      List.map_cons, ih (j + 1), List.map_map]
    refine congrArg (fun t => _ :: t) ?_
    · refine List.map_congr_left ?_
      intro i _
      show key (j + 1 + i) = key (j + (i + 1))
      refine congrArg key (by omega)

/-! ### Merging one batch's local result under renumbered keys -/

theorem merge_fold (B t : Nat) : ∀ (vs : List V) (j : Nat) (acc : PyDict V),
    acc.map Prod.fst = (List.range (B * t + j)).map instKey →
    ∃ m, ((List.enumFrom j vs).map (fun jv => (instKey jv.1, jv.2))).foldlM
        (fun acc kv => do
          let key ← renumber_key B t kv.1
          pure (dictInsert acc key kv.2)) acc = Except.ok m ∧
      m.map Prod.fst = (List.range (B * t + j + vs.length)).map instKey := by
  intro vs
  induction vs with
  | nil => intro j acc h; exact ⟨acc, rfl, by simpa using h⟩
  | cons v vs ih =>
    intro j acc h
    have hfresh : ∀ kv ∈ acc, kv.1 ≠ instKey (B * t + j) := by
      intro kv hkv hE
      have hmem : kv.1 ∈ acc.map Prod.fst := List.mem_map_of_mem Prod.fst hkv
      rw [h] at hmem
      obtain ⟨i, hi, hik⟩ := List.mem_map.mp hmem
      have hieq := instKey_injective (hik.trans hE)
      exact absurd (List.mem_range.mp hi) (by omega)
    have h1 : List.enumFrom j (v :: vs) = (j, v) :: List.enumFrom (j + 1) vs := rfl
    rw [h1, List.map_cons, List.foldlM_cons]
    simp only [renumber_key_instKey, exceptBind_ok, exceptPure_eq_ok]
    rw [dictInsert_of_fresh acc (instKey (B * t + j)) v hfresh]
    have hacc2 : (acc ++ [(instKey (B * t + j), v)]).map Prod.fst =
        (List.range (B * t + (j + 1))).map instKey := by
      have hn : B * t + (j + 1) = (B * t + j) + 1 := by omega
      rw [List.map_append, h, hn, List.range_succ, List.map_append]
      rfl
    obtain ⟨m, hm, hkeys⟩ := ih (j + 1) (acc ++ [(instKey (B * t + j), v)]) hacc2
    refine ⟨m, hm, ?_⟩
    rw [hkeys, List.length_cons]
    refine congrArg (fun n => (List.range n).map instKey) (by omega)

/-! ### The flattening of labeled instances over one batch -/

theorem zip_self_map (l : List I) (f : I → O) :
    l.zip (l.map f) = l.map (fun i => (i, f i)) := by
  induction l with
  | nil => rfl
  | cons a l ih => simp [ih]

theorem labeled_fold (p : Predictor I O J) (fo : I → O) (lab : I → O → I)
    (hpl : ∀ i o, p.predictions_to_labeled_instances i o = .ok [lab i o]) :
    ∀ (b acc : List I),
      ((b.map (fun i => (i, fo i))).foldlM
        (fun acc io => do
          let labeled_instance ← p.predictions_to_labeled_instances io.1 io.2
          pure (acc ++ labeled_instance)) acc) =
        .ok (acc ++ b.map (fun i => lab i (fo i))) := by
  intro b
  induction b with
  | nil => intro acc; simp
  | cons i b ih =>
    intro acc
    rw [List.map_cons, List.foldlM_cons]
    have hx : p.predictions_to_labeled_instances (i, fo i).1 (i, fo i).2 =
        Except.ok [lab i (fo i)] := hpl i (fo i)
    rw [hx, exceptBind_ok, exceptBind_pure, ih]
    simp

/-! ### One full iteration of the batch loop -/

theorem process_batch_ok (self : SaliencyInterpreter I O J V) (fo : I → O)
    (lab : I → O → I) (g : List I → List V)
    (hfwd : ∀ b, self.predictor.forward_on_instances b = .ok (b.map fo))
    (hpl : ∀ i o, self.predictor.predictions_to_labeled_instances i o = .ok [lab i o])
    (hcore : ∀ l, self.saliency_interpret_instances l =
      .ok ((List.enumFrom 0 (g l)).map (fun jv => (instKey jv.1, jv.2))))
    (hg : ∀ l, (g l).length = l.length)
    (B t : Nat) (w : List I) (acc : PyDict V)
    (hacc : acc.map Prod.fst = (List.range (B * t)).map instKey) :
    ∃ m, self.process_batch B t w acc = Except.ok m ∧
      m.map Prod.fst = (List.range (B * t + w.length)).map instKey := by
  unfold SaliencyInterpreter.process_batch
  rw [hfwd w]
  simp only [exceptBind_ok]
  rw [zip_self_map, labeled_fold self.predictor fo lab hpl w []]
  simp only [List.nil_append, exceptBind_ok]
  rw [hcore]
  simp only [exceptBind_ok]
  have hacc0 : acc.map Prod.fst = (List.range (B * t + 0)).map instKey := by
    simpa using hacc
  obtain ⟨m, hm, hkeys⟩ :=
    merge_fold B t (g (w.map (fun i => lab i (fo i)))) 0 acc hacc0
  refine ⟨m, hm, ?_⟩
  rw [hkeys, hg, List.length_map]
  refine congrArg (fun n => (List.range n).map instKey) (by omega)

/-! ### Arithmetic of the batch-start range -/

theorem pyRangeLen_zero (B : Nat) : pyRangeLen 0 B = 0 := by
  unfold pyRangeLen
  cases B with
  | zero => rfl
  | succ b =>
    have h : 0 + (b + 1) - 1 = b := by omega
    rw [h]
    exact Nat.div_eq_of_lt (by omega)

theorem pyRangeLen_succ_formula (D B : Nat) (hB : 0 < B) (hD : 0 < D) :
    pyRangeLen D B = (D - 1) / B + 1 := by
  unfold pyRangeLen
  have h : D + B - 1 = (D - 1) + B := by omega
  rw [h, Nat.add_div_right _ hB]

theorem mul_lt_of_lt_pyRangeLen {D B t : Nat} (hB : 0 < B)
    (ht : t < pyRangeLen D B) : t * B < D := by
  rcases Nat.eq_zero_or_pos D with hD | hD
  · subst hD; rw [pyRangeLen_zero] at ht; omega
  · rw [pyRangeLen_succ_formula D B hB hD] at ht
    have h1 : t ≤ (D - 1) / B := by omega
    have h2 : t * B ≤ (D - 1) / B * B := Nat.mul_le_mul h1 (Nat.le_refl B)
    have h3 : (D - 1) / B * B ≤ D - 1 := Nat.div_mul_le_self (D - 1) B
    omega

theorem le_pyRangeLen_mul (D B : Nat) (hB : 0 < B) : D ≤ pyRangeLen D B * B := by
  rcases Nat.eq_zero_or_pos D with hD | hD
  · subst hD; exact Nat.zero_le _
  · rw [pyRangeLen_succ_formula D B hB hD]
    have h1 := Nat.div_add_mod (D - 1) B
    have h2 : (D - 1) % B < B := Nat.mod_lt _ hB
    have h3 : ((D - 1) / B + 1) * B = (D - 1) / B * B + B := Nat.succ_mul _ _
    have h4 : (D - 1) / B * B = B * ((D - 1) / B) := Nat.mul_comm _ _
    omega

/-! ### The batch loop: invariant over the processed prefix -/

theorem fold_batches (self : SaliencyInterpreter I O J V) (fo : I → O)
    (lab : I → O → I) (g : List I → List V)
    (hfwd : ∀ b, self.predictor.forward_on_instances b = .ok (b.map fo))
    (hpl : ∀ i o, self.predictor.predictions_to_labeled_instances i o = .ok [lab i o])
    (hcore : ∀ l, self.saliency_interpret_instances l =
      .ok ((List.enumFrom 0 (g l)).map (fun jv => (instKey jv.1, jv.2))))
    (hg : ∀ l, (g l).length = l.length)
    (data : List I) (B : Nat) (hB : 0 < B) :
    ∀ t, t ≤ pyRangeLen data.length B →
      ∃ m, ((List.range t).map (fun idx => (idx, idx * B))).foldlM
          (fun interpretations ib =>
            self.process_batch B ib.1 ((data.drop ib.2).take B) interpretations) [] =
          Except.ok m ∧
        m.map Prod.fst = (List.range (min (t * B) data.length)).map instKey := by
  intro t
  induction t with
  | zero => intro _; exact ⟨[], rfl, by simp⟩
  | succ t ih =>
    intro ht
    obtain ⟨m, hm, hkeys⟩ := ih (by omega)
    have htB : t * B < data.length := mul_lt_of_lt_pyRangeLen hB (by omega)
    have hmin : min (t * B) data.length = t * B := min_eq_left htB.le
    rw [hmin, Nat.mul_comm t B] at hkeys
    obtain ⟨m2, hm2, hkeys2⟩ := process_batch_ok self fo lab g hfwd hpl hcore hg B t
      ((data.drop (t * B)).take B) m hkeys
    rw [List.range_succ, List.map_append, List.foldlM_append, hm, exceptBind_ok]
    refine ⟨m2, ?_, ?_⟩
    · simp only [List.map_cons, List.map_nil, List.foldlM_cons, List.foldlM_nil]
      rw [hm2]
      rfl
    · rw [hkeys2]
      have hw : ((data.drop (t * B)).take B).length = min B (data.length - t * B) := by
        rw [List.length_take, List.length_drop]
      rw [hw]
      refine congrArg (fun n => (List.range n).map instKey) ?_
      have hsucc : (t + 1) * B = t * B + B := Nat.succ_mul t B
      have hc : B * t = t * B := Nat.mul_comm B t
      omega

/-! ### The windows of the dataset -/

theorem pyRange_cons (D B : Nat) (hB : 0 < B) (hD : 0 < D) :
    pyRange D B = 0 :: (pyRange (D - B) B).map (· + B) := by
  unfold pyRange
  have h1 : pyRangeLen D B = pyRangeLen (D - B) B + 1 := by
    rcases Nat.lt_or_ge D (B + 1) with h | h
    · have hD2 : D - B = 0 := by omega
      rw [hD2, pyRangeLen_zero]
      unfold pyRangeLen
      have h3 : D + B - 1 = (D - 1) + B := by omega
      rw [h3, Nat.add_div_right _ hB, Nat.div_eq_of_lt (by omega)]
    · have e1 : pyRangeLen D B = (D - 1) / B + 1 := pyRangeLen_succ_formula D B hB hD
      have e2 : pyRangeLen (D - B) B = (D - B - 1) / B + 1 :=
        pyRangeLen_succ_formula _ B hB (by omega)
      have e3 : D - 1 = (D - B - 1) + B := by omega
      rw [e1, e2, e3, Nat.add_div_right _ hB]
  rw [h1, List.range_succ_eq_map, List.map_cons, List.map_map, List.map_map]
  refine congrArg₂ List.cons (by omega) ?_
  refine List.map_congr_left ?_
  intro i _
  show (i + 1) * B = i * B + B
  exact Nat.succ_mul i B

theorem datasetWindows_nil (B : Nat) : datasetWindows ([] : List I) B = [] := by
  unfold datasetWindows pyRange
  rw [List.length_nil, pyRangeLen_zero]
  rfl

theorem datasetWindows_cons (B : Nat) (hB : 0 < B) (data : List I) (hd : data ≠ []) :
    datasetWindows data B = data.take B :: datasetWindows (data.drop B) B := by
  unfold datasetWindows
  have hD : 0 < data.length := List.length_pos.mpr hd
  rw [pyRange_cons data.length B hB hD, List.map_cons, List.map_map, List.length_drop]
  refine congrArg₂ List.cons (by simp) ?_
  refine List.map_congr_left ?_
  intro x _
  show (data.drop (x + B)).take B = ((data.drop B).drop x).take B
  rw [List.drop_drop, Nat.add_comm B x]

theorem datasetWindows_flatten_aux (B : Nat) (hB : 0 < B) :
    ∀ (n : Nat) (data : List I), data.length ≤ n →
      (datasetWindows data B).flatten = data := by
  intro n
  induction n with
  | zero =>
    intro data h
    have hnil : data = [] := List.eq_nil_of_length_eq_zero (by omega)
    subst hnil
    rw [datasetWindows_nil]
    rfl
  | succ n ih =>
    intro data h
    rcases data with _ | ⟨a, l⟩
    · rw [datasetWindows_nil]; rfl
    · rw [datasetWindows_cons B hB _ (by simp), List.flatten_cons,
        ih ((a :: l).drop B)
          (by rw [List.length_drop]; simp only [List.length_cons] at h ⊢; omega)]
      exact List.take_append_drop B (a :: l)

theorem datasetWindows_flatten (B : Nat) (hB : 0 < B) (data : List I) :
    (datasetWindows data B).flatten = data :=
  datasetWindows_flatten_aux B hB data.length data (Nat.le_refl _)

theorem datasetWindows_length_le (data : List I) (B : Nat) :
    ∀ w ∈ datasetWindows data B, w.length ≤ B := by
  intro w hw
  unfold datasetWindows at hw
  obtain ⟨x, _, hxw⟩ := List.mem_map.mp hw
  rw [← hxw, List.length_take]
  exact Nat.min_le_left _ _

theorem datasetWindows_full (data : List I) (B : Nat) (hB : 0 < B) (i : Nat)
    (hi : i + 1 < (datasetWindows data B).length) :
    ((datasetWindows data B).getD i []).length = B := by
  unfold datasetWindows pyRange at hi ⊢
  rw [List.length_map, List.length_map, List.length_range] at hi
  have hlen : i < (((List.range (pyRangeLen data.length B)).map (· * B)).map
      (fun x => (data.drop x).take B)).length := by
    rw [List.length_map, List.length_map, List.length_range]; omega
  rw [List.getD_eq_getElem _ _ hlen]
  simp only [List.getElem_map, List.getElem_range]
  have h1 : (i + 1) * B < data.length := mul_lt_of_lt_pyRangeLen hB hi
  rw [List.length_take, List.length_drop]
  have hs : (i + 1) * B = i * B + B := Nat.succ_mul i B
  omega

/-! ### A monadic fold aborts at the first failing element -/

theorem foldlM_take_drop_error {A B2 E : Type} (f : B2 → A → Except E B2) (l : List A)
    (t : Nat) (b m : B2) (e : E) (hlen : t < l.length)
    (hpre : (l.take t).foldlM f b = Except.ok m)
    (hfail : f m (l.get ⟨t, hlen⟩) = Except.error e) :
    l.foldlM f b = Except.error e := by
  have h1 : l.foldlM f b =
      (l.take t).foldlM f b >>= fun b2 => (l.drop t).foldlM f b2 := by
    rw [← List.foldlM_append, List.take_append_drop]
  rw [List.get_eq_getElem] at hfail
  rw [h1, hpre, exceptBind_ok, List.drop_eq_getElem_cons hlen, List.foldlM_cons, hfail,
    exceptBind_error]

/-! ### The claims -/

/-- Claim C1: for every finite dataset of size `D` and positive batch size `B`, when
each instance yields exactly one labeled instance and the core operation keys its
results `instance_0 .. instance_(k-1)`, `saliency_interpret_dataset` returns a map
whose keys are exactly `instance_0 .. instance_(D-1)`, in order, with no gaps and no
duplicates, for every relation between `D` and `B`; moreover the dataset is partitioned
into consecutive in-order windows of at most `B` instances, all of size exactly `B`
except possibly the final one. -/
theorem C1_interpret_dataset_dense_keys (self : SaliencyInterpreter I O J V)
    (fo : I → O) (lab : I → O → I) (g : List I → List V) (sanitizeV : V → V)
    (data : List I) (B : Nat) (hB : 0 < B)
    (hfwd : ∀ b, self.predictor.forward_on_instances b = .ok (b.map fo))
    (hpl : ∀ i o, self.predictor.predictions_to_labeled_instances i o = .ok [lab i o])
    (hcore : ∀ l, self.saliency_interpret_instances l =
      .ok ((List.enumFrom 0 (g l)).map (fun jv => (instKey jv.1, jv.2))))
    (hg : ∀ l, (g l).length = l.length) :
    (∃ m, self.saliency_interpret_dataset sanitizeV (Dataset.eager data) B = .ok m ∧
      m.map Prod.fst = (List.range data.length).map instKey) ∧
    (datasetWindows data B).flatten = data ∧
    (∀ w ∈ datasetWindows data B, w.length ≤ B) ∧
    (∀ i, i + 1 < (datasetWindows data B).length →
      ((datasetWindows data B).getD i []).length = B) := by
  refine ⟨?_, datasetWindows_flatten B hB data, datasetWindows_length_le data B,
    fun i hi => datasetWindows_full data B hB i hi⟩
  obtain ⟨m, hm, hkeys⟩ := fold_batches self fo lab g hfwd hpl hcore hg data B hB
    (pyRangeLen data.length B) (Nat.le_refl _)
  have hmin : min (pyRangeLen data.length B * B) data.length = data.length :=
    min_eq_right (le_pyRangeLen_mul data.length B hB)
  rw [hmin] at hkeys
  refine ⟨sanitizeDict sanitizeV m, ?_, ?_⟩
  · unfold SaliencyInterpreter.saliency_interpret_dataset
    simp only [Dataset.pyLen, Dataset.toList, exceptBind_ok]
    rw [if_neg (by omega), hm, exceptBind_ok]
    rfl
  · have hfst : (sanitizeDict sanitizeV m).map Prod.fst = m.map Prod.fst := by
      unfold sanitizeDict
      rw [List.map_map]
      exact List.map_congr_left (fun a _ => rfl)
    rw [hfst, hkeys]

/-- Witness for C1 at the concrete interpreter `interpNat`, dataset `[10, 11, 12]` and
batch size 2 (so `D` is not a multiple of `B`). -/
theorem C1_interpret_dataset_dense_keys_witness :
    (0 < 2) ∧
    ((∃ m, interpNat.saliency_interpret_dataset (fun v => v)
        (Dataset.eager [10, 11, 12]) 2 = .ok m ∧
      m.map Prod.fst = (List.range ([10, 11, 12] : List Nat).length).map instKey) ∧
    (datasetWindows ([10, 11, 12] : List Nat) 2).flatten = [10, 11, 12] ∧
    (∀ w ∈ datasetWindows ([10, 11, 12] : List Nat) 2, w.length ≤ 2) ∧
    (∀ i, i + 1 < (datasetWindows ([10, 11, 12] : List Nat) 2).length →
      ((datasetWindows ([10, 11, 12] : List Nat) 2).getD i []).length = 2)) :=
  ⟨by decide, C1_interpret_dataset_dense_keys interpNat (fun i => i) (fun i _o => i)
    (fun l => l) (fun v => v) [10, 11, 12] 2 (by decide) (fun b => rfl) (fun i o => rfl)
    (fun l => rfl) (fun l => rfl)⟩

/-- Claim C2, counterexample: the claim's concrete scenario fails on the code.  For the
dataset `[10..14]` with batch size 2 and a core operation producing the keys
`grad_input_0, grad_input_1, ...` (the key shape named by the claim),
`saliency_interpret_dataset` raises `ValueError` — `'grad_input_0'.split('_')` has
three parts, so the two-variable unpacking on line 58 fails — instead of renumbering
batch 1's `grad_input_0` to `grad_input_2`. -/
theorem C2_grad_input_counterexample :
    gradInterp.saliency_interpret_dataset (fun v => v)
      (Dataset.eager [10, 11, 12, 13, 14]) 2 = .error .valueError := by decide

/-- Claim C2 as amended: the rewriting of a batch-local key `name_<j>` to
`name_<batchSize*idx + j>` (preserving the name prefix) holds exactly when the name
prefix contains no underscore; a key whose prefix itself contains an underscore — such
as `grad_input_0`, which is `n1 ++ "_" ++ n2 ++ "_" ++ digits` with `n1 = "grad"`,
`n2 = "input"` — makes the two-variable split fail and the merge step raises
`ValueError` instead of renumbering. -/
theorem C2_renumber_amended :
    (∀ (name : PyStr) (B idx j : Nat), '_' ∉ name →
      renumber_key B idx (name ++ '_' :: pyStrNat j) =
        .ok (name ++ '_' :: pyStrNat (B * idx + j))) ∧
    (∀ (n1 n2 s : PyStr) (B idx : Nat), '_' ∉ n1 → '_' ∉ n2 → '_' ∉ s →
      renumber_key B idx (n1 ++ '_' :: (n2 ++ '_' :: s)) = .error .valueError) :=
  ⟨fun name B idx j h => renumber_key_ok B idx j name h,
   fun n1 n2 s B idx h1 h2 h3 => renumber_key_underscore_name B idx n1 n2 s h1 h2 h3⟩

/-- Witness for the amended C2: batch index 1 with batch size 2 renumbers `grad_0` to
`grad_2`, while `grad_input_0` raises `ValueError`. -/
theorem C2_renumber_amended_witness :
    ('_' ∉ pystr "grad") ∧
    renumber_key 2 1 (pystr "grad" ++ '_' :: pyStrNat 0) =
      .ok (pystr "grad" ++ '_' :: pyStrNat 2) ∧
    renumber_key 2 1 (pystr "grad" ++ '_' :: (pystr "input" ++ '_' :: pyStrNat 0)) =
      .error .valueError :=
  ⟨by decide,
   C2_renumber_amended.1 (pystr "grad") 2 1 0 (by decide),
   C2_renumber_amended.2 (pystr "grad") (pystr "input") (pyStrNat 0) 2 1 (by decide)
     (by decide) (by decide)⟩

/-- Claim C3: the base `saliency_interpret_instances` (no subclass override), applied to
any list of labeled instances, raises `NotImplementedError` with the source's message
and never returns a value. -/
theorem C3_base_interpret_instances_raises (p : Predictor I O J)
    (labeled_instances : List I) :
    (SaliencyInterpreter.base p : SaliencyInterpreter I O J V).saliency_interpret_instances
        labeled_instances =
      .error (.notImplementedError "Implement this for saliency interpretations") ∧
    ∀ m, (SaliencyInterpreter.base p : SaliencyInterpreter I O J V).saliency_interpret_instances
        labeled_instances ≠ Except.ok m :=
  ⟨rfl, fun _ h => Except.noConfusion h⟩

/-- Claim C4: for every input whose conversion by the Predictor yields labeled instances
`ls`, `saliency_interpret_from_json` equals the per-instance core operation applied to
`ls`; when the core keys its results `instance_0 ..`, the result has exactly one
`instance_<i>` entry per labeled instance, in order, for `i` in `0..N-1`; and the call
leaves the interpreter object unchanged (no side effect beyond invoking the
Predictor). -/
theorem C4_from_json_delegates (self : SaliencyInterpreter I O J V)
    (g : List I → List V) (inputs : J) (ls : List I)
    (hjson : self.predictor.json_to_labeled_instances inputs = .ok ls)
    (hcore : ∀ l, self.saliency_interpret_instances l =
      .ok ((List.enumFrom 0 (g l)).map (fun jv => (instKey jv.1, jv.2))))
    (hg : ∀ l, (g l).length = l.length) :
    self.saliency_interpret_from_json inputs = self.saliency_interpret_instances ls ∧
    (∃ m, self.saliency_interpret_from_json inputs = .ok m ∧
      m.map Prod.fst = (List.range ls.length).map instKey) ∧
    (self.saliency_interpret_from_json_call inputs).2 = self := by
  have h1 : self.saliency_interpret_from_json inputs =
      self.saliency_interpret_instances ls := by
    unfold SaliencyInterpreter.saliency_interpret_from_json
    rw [hjson, exceptBind_ok]
  refine ⟨h1, ⟨(List.enumFrom 0 (g ls)).map (fun jv => (instKey jv.1, jv.2)), ?_, ?_⟩, rfl⟩
  · rw [h1, hcore]
  · rw [keys_enumFrom_map instKey (g ls) 0, hg]
    exact List.map_congr_left (fun i _ => by rw [Nat.zero_add])

/-- Witness for C4 at the concrete interpreter `interpNat` and input `7`, which the
predictor converts to the single labeled instance `7`. -/
theorem C4_from_json_delegates_witness :
    (interpNat.predictor.json_to_labeled_instances 7 = .ok [7]) ∧
    (interpNat.saliency_interpret_from_json 7 = interpNat.saliency_interpret_instances [7] ∧
      (∃ m, interpNat.saliency_interpret_from_json 7 = .ok m ∧
        m.map Prod.fst = (List.range ([7] : List Nat).length).map instKey) ∧
      (interpNat.saliency_interpret_from_json_call 7).2 = interpNat) :=
  ⟨rfl, C4_from_json_delegates interpNat (fun l => l) 7 [7] rfl (fun _ => rfl)
    (fun _ => rfl)⟩

/-- Claim C5, the failing behavior: on a streamed dataset without a length method
(`AllennlpLazyDataset`, modelled from the spec), `saliency_interpret_dataset` raises
`TypeError` at `len(data)` — evaluated while building `range(0, len(data), batch_size)`,
before any batch is processed — for every predictor, core operation and batch size,
instead of completing with the merged result as the claim states. -/
theorem C5_lazy_dataset_len_raises (self : SaliencyInterpreter I O J V)
    (sanitizeV : V → V) (instances : List I) (batch_size : Nat) :
    self.saliency_interpret_dataset sanitizeV (Dataset.lazy instances) batch_size =
      .error .typeError := rfl

/-- Claim C6: for every positive batch size, `saliency_interpret_dataset` on an empty
dataset returns the empty map and raises nothing; `self` is universally quantified, so
this holds in particular for an interpreter whose predictor and core operation always
raise — the collaborators are never invoked. -/
theorem C6_empty_dataset (self : SaliencyInterpreter I O J V) (sanitizeV : V → V)
    (batch_size : Nat) (hB : 0 < batch_size) :
    self.saliency_interpret_dataset sanitizeV (Dataset.eager []) batch_size = .ok [] := by
  unfold SaliencyInterpreter.saliency_interpret_dataset
  simp only [Dataset.pyLen, Dataset.toList, exceptBind_ok]
  rw [if_neg (by omega)]
  simp only [List.length_nil, pyRangeLen_zero, List.range_zero, List.map_nil,
    List.foldlM_nil]
  rfl

/-- Witness for C6: the base interpreter over the always-failing predictor `pFail`
(whose forward pass raises and whose core raises `NotImplementedError`) still returns
the empty map on the empty dataset. -/
theorem C6_empty_dataset_witness :
    (0 < 1) ∧
    (SaliencyInterpreter.base pFail : SaliencyInterpreter Nat Nat Nat Nat).saliency_interpret_dataset
      (fun v => v) (Dataset.eager []) 1 = .ok [] :=
  ⟨by decide,
   C6_empty_dataset (SaliencyInterpreter.base pFail) (fun v => v) 1 (by decide)⟩

/-- Claim C7: if, at any batch index `t`, the processing of that batch (the Predictor's
forward pass, the labeled-instance conversion, the core operation, or the key merge)
raises `e` while all earlier batches succeeded, then `saliency_interpret_dataset`
returns exactly that error `e`: the error is not caught, translated or retried, and no
partial merged result is returned. -/
theorem C7_collaborator_error_aborts (self : SaliencyInterpreter I O J V)
    (sanitizeV : V → V) (data : List I) (B t : Nat) (m : PyDict V) (e : PyErr)
    (hB : 0 < B) (ht : t < pyRangeLen data.length B)
    (hpre : (((List.range (pyRangeLen data.length B)).map
        (fun idx => (idx, idx * B))).take t).foldlM
        (fun interpretations ib =>
          self.process_batch B ib.1 ((data.drop ib.2).take B) interpretations) [] =
        Except.ok m)
    (hfail : self.process_batch B t ((data.drop (t * B)).take B) m = .error e) :
    self.saliency_interpret_dataset sanitizeV (Dataset.eager data) B = .error e := by
  unfold SaliencyInterpreter.saliency_interpret_dataset
  simp only [Dataset.pyLen, Dataset.toList, exceptBind_ok]
  rw [if_neg (by omega)]
  have hlen : t < ((List.range (pyRangeLen data.length B)).map
      (fun idx => (idx, idx * B))).length := by
    rw [List.length_map, List.length_range]; exact ht
  have hget : ((List.range (pyRangeLen data.length B)).map
      (fun idx => (idx, idx * B))).get ⟨t, hlen⟩ = (t, t * B) := by
    simp [List.get_eq_getElem]
  have hfail2 : (fun interpretations ib =>
      self.process_batch B ib.1 ((data.drop ib.2).take B) interpretations) m
      (((List.range (pyRangeLen data.length B)).map
        (fun idx => (idx, idx * B))).get ⟨t, hlen⟩) = Except.error e := by
    rw [hget]
    exact hfail
  rw [foldlM_take_drop_error _ _ t [] m e hlen hpre hfail2, exceptBind_error]

/-- Witness for C7: `failInterp`'s forward pass raises at the first batch of the
nonempty dataset `[1, 2]`, and the whole dataset interpretation returns exactly that
error. -/
theorem C7_collaborator_error_aborts_witness :
    (0 < 1) ∧ (0 < pyRangeLen ([1, 2] : List Nat).length 1) ∧
    failInterp.saliency_interpret_dataset (fun v => v) (Dataset.eager [1, 2]) 1 =
      .error (.other 7) :=
  ⟨by decide, by decide,
   C7_collaborator_error_aborts failInterp (fun v => v) [1, 2] 1 0 [] (.other 7)
     (by decide) (by decide) (by decide) (by decide)⟩

/-- Claim C8: running `saliency_interpret_dataset` twice — the second call on exactly
the interpreter object left by the first call — with the same dataset, sanitizer and
batch size yields the identical result, and the object after both calls is the original
one.  (The embedded predictors are pure functions, matching the claim's side-effect-free
predictor.) -/
theorem C8_idempotent_dataset_calls (self : SaliencyInterpreter I O J V)
    (sanitizeV : V → V) (data : Dataset I) (batch_size : Nat) :
    (((self.saliency_interpret_dataset_call sanitizeV data batch_size).2).saliency_interpret_dataset_call
        sanitizeV data batch_size).1 =
      (self.saliency_interpret_dataset_call sanitizeV data batch_size).1 ∧
    (((self.saliency_interpret_dataset_call sanitizeV data batch_size).2).saliency_interpret_dataset_call
        sanitizeV data batch_size).2 = self :=
  ⟨rfl, rfl⟩

/-- Claim C9: none of the three operations retains or mutates interpreter state: each
call leaves the interpreter object — in particular its only field, the held Predictor
reference — exactly as it was. -/
theorem C9_no_retained_state (self : SaliencyInterpreter I O J V) (inputs : J)
    (sanitizeV : V → V) (data : Dataset I) (batch_size : Nat)
    (labeled_instances : List I) :
    (self.saliency_interpret_from_json_call inputs).2 = self ∧
    (self.saliency_interpret_dataset_call sanitizeV data batch_size).2 = self ∧
    (self.saliency_interpret_instances_call labeled_instances).2 = self ∧
    ((self.saliency_interpret_dataset_call sanitizeV data batch_size).2).predictor =
      self.predictor :=
  ⟨rfl, rfl, rfl, rfl⟩

/-- Claim C10: sanitization is asymmetric.  `saliency_interpret_from_json` returns the
core operation's result unchanged (for every interpreter and input, no sanitize on that
path), while `saliency_interpret_dataset` maps `sanitize` over the merged values before
returning: concretely, with the sanitizer `(100 + ·)`, the dataset path returns the
sanitized value `107` for the instance `7` while the JSON path returns the raw `7`. -/
theorem C10_sanitize_asymmetry :
    (∀ (I2 O2 J2 V2 : Type) (self : SaliencyInterpreter I2 O2 J2 V2) (inputs : J2)
      (ls : List I2), self.predictor.json_to_labeled_instances inputs = .ok ls →
        self.saliency_interpret_from_json inputs = self.saliency_interpret_instances ls) ∧
    interpNat.saliency_interpret_dataset (fun v => v + 100) (Dataset.eager [7]) 1 =
      .ok [(instKey 0, 107)] ∧
    interpNat.saliency_interpret_from_json 7 = .ok [(instKey 0, 7)] := by
  refine ⟨?_, by decide, by decide⟩
  intro I2 O2 J2 V2 self inputs ls h
  unfold SaliencyInterpreter.saliency_interpret_from_json
  rw [h, exceptBind_ok]

/-- Witness for C10's universally quantified part, at the concrete interpreter
`interpNat` and input `5`. -/
theorem C10_sanitize_asymmetry_witness :
    interpNat.saliency_interpret_from_json 5 = interpNat.saliency_interpret_instances [5] :=
  C10_sanitize_asymmetry.1 Nat Nat Nat Nat interpNat 5 [5] rfl
